import Mathlib

/-!
Shallow embedding of the 2048 board engine from `src/lab_1/part1.py`.

A Python cell holds either the empty marker `""` or an integer, so a cell is
modelled as `Option Nat` (`none` = empty, `some v` = occupied with value `v`).
The global `board` variable is passed explicitly as a `List (List Cell)`.
Functions that in Python mutate `board` in place are modelled as functions
from the old board to the new board; `updateTheBoardBasedOnTheUserMove`,
which can raise, returns `Except String Board`.  `random.choice` and
`random.sample` are modelled by passing the random outcome as an explicit
argument and quantifying over all outcomes in the theorems.
-/

abbrev Cell := Option Nat
abbrev Row := List Cell
abbrev Board := List Row

/-- Safe read of cell `(r, c)`; in the rectangular in-range boards the claims
quantify over this coincides with the Python indexing `board[r][c]`. -/
def getCell (b : Board) (r c : Nat) : Cell :=
  (b.getD r []).getD c none

/-- The Python in-place assignment `board[r][c] = v`. -/
def setCell (b : Board) (r c : Nat) (v : Cell) : Board :=
  b.set r ((b.getD r []).set c v)

/-- The merge scan inside `slideLeftAndMergeRow` (source lines 193-208): one
left-to-right pass over the compacted values with the `is_merged` flag, which
skips the element right after a merge so a freshly merged cell never merges
again within the same pass. -/
def mergePass : List Nat → List Nat
  | [] => []
  | [x] => [x]
  | x :: y :: rest =>
    if x = y then (x * 2) :: mergePass rest
    else x :: mergePass (y :: rest)

/-- `slideLeftAndMergeRow` (source lines 180-214): drop the empty cells,
run the merge pass, then pad with empty cells back to the input length. -/
def slideLeftAndMergeRow (row_array : Row) : Row :=
  let non_empty_cells := row_array.filterMap id
  let final_cell := mergePass non_empty_cells
  final_cell.map some ++ List.replicate (row_array.length - final_cell.length) none

/-- `transposeBoard` (source lines 217-232): builds the new board column by
column, reading `current_board[row][col]` for `row` below `row_size` and
`col` below `col_size = len(current_board[0])`. -/
def transposeBoard (current_board : Board) : Board :=
  (List.range (current_board.headD []).length).map (fun col =>
    (List.range current_board.length).map (fun row =>
      (current_board.getD row []).getD col none))

/-- `updateTheBoardBasedOnTheUserMove` (source lines 134-172).  The loops
`for row_index in range(row_size): board[row_index] = slideLeftAndMergeRow(...)`
rewrite every row independently and are embedded as `List.map`; `row_size` is
read from `len(board)` before any transposition, which on the square 4x4
boards in scope equals the row count of the transposed board as well.  The
final `else` branch raises `RuntimeError("Unexpected logic path")` before any
mutation, so it is embedded as `Except.error` with the board untouched. -/
def updateTheBoardBasedOnTheUserMove (move : String) (board : Board) :
    Except String Board :=
  if move = "A" then
    .ok (board.map slideLeftAndMergeRow)
  else if move = "D" then
    .ok (board.map (fun row => (slideLeftAndMergeRow row.reverse).reverse))
  else if move = "W" then
    .ok (transposeBoard ((transposeBoard board).map slideLeftAndMergeRow))
  else if move = "S" then
    .ok (transposeBoard ((transposeBoard board).map
      (fun row => (slideLeftAndMergeRow row.reverse).reverse)))
  else
    .error "Unexpected logic path"

/-- `getCurrentScore` (source lines 113-131): sums every non-empty cell. -/
def getCurrentScore (board : Board) : Nat :=
  (board.map (fun row => (row.filterMap id).sum)).sum

/-- `isFull` (source lines 93-110): the early-exit double loop returning
`False` on the first empty cell is the conjunction over all cells. -/
def isFull (board : Board) : Bool :=
  board.all (fun row => row.all (fun cell => cell.isSome))

/-- The `empty_cells` list built by `addANewTwoToBoard` (source lines 76-84):
all coordinates `(row, col)` with `row < len(board)`,
`col < len(board[0])` and `board[row][col] == ""`, in row-major order.
The out-of-range default `some 0` is never hit on rectangular boards. -/
def emptyCells (board : Board) : List (Nat × Nat) :=
  (List.range board.length).flatMap (fun row =>
    (List.range (board.headD []).length).filterMap (fun col =>
      if (board.getD row []).getD col (some 0) = none then some (row, col)
      else none))

/-- `addANewTwoToBoard` (source lines 68-90).  `random.choice(empty_cells)`
is modelled by the explicit index `i` into `empty_cells`; theorems quantify
over every `i < empty_cells.length`, covering every possible random outcome.
When the board is full, `empty_cells` is empty and the board is returned
unchanged. -/
def addANewTwoToBoard (board : Board) (i : Nat) : Board :=
  let empty_cells := emptyCells board
  if empty_cells.isEmpty then board
  else
    let chosen := empty_cells.getD i (0, 0)
    setCell board chosen.1 chosen.2 (some 2)

/-- The board fragment of `init` (source lines 12-37): a 4x4 empty board,
then a 2 placed on each of the two cells determined by the two distinct
numbers `n1, n2 < 16` drawn by `random.sample(range(16), 2)`. -/
def init (n1 n2 : Nat) : Board :=
  let empty : Board := List.replicate 4 (List.replicate 4 (none : Cell))
  setCell (setCell empty (n1 / 4) (n1 % 4) (some 2)) (n2 / 4) (n2 % 4) (some 2)

/-- Number of occupied (non-empty) cells in a row: the measure used by the
spec, not a function of the source. -/
def occupiedCountRow (row : Row) : Nat :=
  row.countP (fun cell => cell.isSome)

/-- Number of occupied (non-empty) cells on the board. -/
def occupiedCount (board : Board) : Nat :=
  (board.map occupiedCountRow).sum

/-- The board is a 4x4 grid: four rows of four cells each. -/
def dims4 (board : Board) : Prop :=
  board.length = 4 ∧ ∀ row ∈ board, row.length = 4

/-! ### Lemmas about the merge pass -/

theorem mergePass_sum (l : List Nat) : (mergePass l).sum = l.sum := by
  induction l using mergePass.induct with
  | case1 => rfl
  | case2 x => rfl
  | case3 x rest ih => simp [mergePass, ih]; ring
  | case4 x y rest h ih => simp [mergePass, if_neg h, ih]

theorem mergePass_length_le (l : List Nat) : (mergePass l).length ≤ l.length := by
  induction l using mergePass.induct with
  | case1 => simp [mergePass]
  | case2 x => simp [mergePass]
  | case3 x rest ih => simp [mergePass]; omega
  | case4 x y rest h ih => simp [mergePass, if_neg h] at ih ⊢; omega

/-- A sequence with no equal adjacent values is a fixed point of the merge
pass. -/
theorem mergePass_of_chain (l : List Nat) (h : l.Chain' (fun a b => a ≠ b)) :
    mergePass l = l := by
  induction l using mergePass.induct with
  | case1 => rfl
  | case2 x => rfl
  | case3 x rest ih => rw [List.chain'_cons] at h; exact absurd rfl h.1
  | case4 x y rest hne ih =>
    rw [List.chain'_cons] at h
    simp [mergePass, if_neg hne, ih h.2]

/-! ### Lemmas about slideLeftAndMergeRow -/

theorem slide_filterMap (r : Row) :
    (slideLeftAndMergeRow r).filterMap id = mergePass (r.filterMap id) := by
  simp [slideLeftAndMergeRow, List.filterMap_append, List.filterMap_map,
    List.filterMap_replicate]

theorem mergePass_filterMap_length_le (r : Row) :
    (mergePass (r.filterMap id)).length ≤ r.length :=
  le_trans (mergePass_length_le _) (List.length_filterMap_le _ _)

theorem slide_length (r : Row) :
    (slideLeftAndMergeRow r).length = r.length := by
  have h := mergePass_filterMap_length_le r
  simp [slideLeftAndMergeRow]
  omega

theorem rowScore_slide (r : Row) :
    ((slideLeftAndMergeRow r).filterMap id).sum = (r.filterMap id).sum := by
  rw [slide_filterMap, mergePass_sum]

theorem rowScore_reverse (r : Row) :
    (r.reverse.filterMap id).sum = (r.filterMap id).sum := by
  rw [List.filterMap_reverse, List.sum_reverse]

theorem occupiedCountRow_eq_length_filterMap (r : Row) :
    occupiedCountRow r = (r.filterMap id).length := by
  induction r with
  | nil => rfl
  | cons c t ih =>
    cases c <;> simp [occupiedCountRow, List.countP_cons, List.filterMap_cons] at ih ⊢ <;>
      omega

theorem occupiedCountRow_slide_le (r : Row) :
    occupiedCountRow (slideLeftAndMergeRow r) ≤ occupiedCountRow r := by
  rw [occupiedCountRow_eq_length_filterMap, occupiedCountRow_eq_length_filterMap,
    slide_filterMap]
  exact mergePass_length_le _

theorem occupiedCountRow_reverse (r : Row) :
    occupiedCountRow r.reverse = occupiedCountRow r := by
  rw [occupiedCountRow_eq_length_filterMap, occupiedCountRow_eq_length_filterMap,
    List.filterMap_reverse, List.length_reverse]

/-- C4: slideLeftAndMergeRow on the two example rows of the spec: the two 2s
of `[2,2,4,""]` merge into a 4 which does not merge again with the original 4
in the same pass, giving `[4,4,"",""]`; and in `[2,"",2,2]` the leftmost equal
pair merges first, giving `[4,2,"",""]`. -/
theorem C4_slide_examples :
    slideLeftAndMergeRow [some 2, some 2, some 4, none]
        = [some 4, some 4, none, none]
      ∧ slideLeftAndMergeRow [some 2, none, some 2, some 2]
        = [some 4, some 2, none, none] := by
  constructor <;> rfl

/-! ### Generic list and range helpers -/

theorem headD_eq_getD_zero {α : Type} (l : List α) (d : α) :
    l.headD d = l.getD 0 d := by
  cases l <;> rfl

theorem getD_mem_of_lt {α : Type} {l : List α} {i : Nat} (d : α)
    (h : i < l.length) : l.getD i d ∈ l := by
  rw [List.getD_eq_getElem l d h]
  exact List.getElem_mem h

theorem map_getD_range {α : Type} (l : List α) (d : α) :
    (List.range l.length).map (fun i => l.getD i d) = l := by
  induction l with
  | nil => rfl
  | cons a t ih =>
    rw [List.length_cons, List.range_succ_eq_map, List.map_cons, List.map_map]
    have : ((fun i => (a :: t).getD i d) ∘ Nat.succ) = fun i => t.getD i d := by
      funext i; rfl
    rw [this, ih]
    rfl

theorem getD_map_range {α : Type} (f : Nat → α) {n i : Nat} (h : i < n) (d : α) :
    ((List.range n).map f).getD i d = f i := by
  have hlen : i < ((List.range n).map f).length := by
    simpa using h
  rw [List.getD_eq_getElem _ d hlen, List.getElem_map, List.getElem_range]

theorem sum_map_range (f : Nat → Nat) (n : Nat) :
    ((List.range n).map f).sum = ∑ i ∈ Finset.range n, f i := by
  induction n with
  | zero => rfl
  | succ m ih =>
    rw [List.range_succ, List.map_append, List.sum_append, Finset.sum_range_succ, ih]
    rfl

theorem headD_length {b : Board} {C : Nat} (hb : 0 < b.length)
    (hC : ∀ r ∈ b, r.length = C) : (b.headD []).length = C := by
  cases b with
  | nil => simp at hb
  | cons r t => exact hC r (List.mem_cons_self r t)

/-! ### Transpose lemmas -/

theorem transposeBoard_eq {b : Board} {C : Nat} (hb : 0 < b.length)
    (hC : ∀ r ∈ b, r.length = C) :
    transposeBoard b = (List.range C).map (fun col =>
      (List.range b.length).map (fun row => (b.getD row []).getD col none)) := by
  rw [transposeBoard, headD_length hb hC]

theorem transposeBoard_length {b : Board} {C : Nat} (hb : 0 < b.length)
    (hC : ∀ r ∈ b, r.length = C) : (transposeBoard b).length = C := by
  rw [transposeBoard_eq hb hC]
  simp

theorem transposeBoard_mem_length {b : Board} {C : Nat} (hb : 0 < b.length)
    (hC : ∀ r ∈ b, r.length = C) :
    ∀ r ∈ transposeBoard b, r.length = b.length := by
  rw [transposeBoard_eq hb hC]
  intro r hr
  rcases List.mem_map.mp hr with ⟨col, hcol, rfl⟩
  simp

theorem transposeBoard_transposeBoard {b : Board} {C : Nat}
    (hb : 0 < b.length) (hC0 : 0 < C) (hC : ∀ r ∈ b, r.length = C) :
    transposeBoard (transposeBoard b) = b := by
  have h1 : transposeBoard b = (List.range C).map (fun col =>
      (List.range b.length).map (fun row => (b.getD row []).getD col none)) :=
    transposeBoard_eq hb hC
  have hTlen : (transposeBoard b).length = C := transposeBoard_length hb hC
  have hTrows : ∀ r ∈ transposeBoard b, r.length = b.length :=
    transposeBoard_mem_length hb hC
  have hTpos : 0 < (transposeBoard b).length := by omega
  rw [transposeBoard_eq hTpos hTrows]
  simp only [hTlen]
  conv_rhs => rw [← map_getD_range b ([] : Row)]
  apply List.map_congr_left
  intro i hi
  rw [List.mem_range] at hi
  have h2 : ∀ j ∈ List.range C,
      ((transposeBoard b).getD j []).getD i none = (b.getD i []).getD j none := by
    intro j hj
    rw [List.mem_range] at hj
    rw [h1, getD_map_range _ hj, getD_map_range _ hi]
  rw [List.map_congr_left h2]
  have hlen_i : (b.getD i []).length = C := hC _ (getD_mem_of_lt [] hi)
  rw [← hlen_i, map_getD_range]

theorem sum_map_eq_finset (f : Cell → Nat) (row : Row) :
    (row.map f).sum = ∑ c ∈ Finset.range row.length, f (row.getD c none) := by
  conv_lhs => rw [← map_getD_range row none]
  rw [List.map_map, sum_map_range]
  rfl

theorem sum_map_transposeBoard (f : Cell → Nat) {b : Board} {C : Nat}
    (hb : 0 < b.length) (hC : ∀ r ∈ b, r.length = C) :
    ((transposeBoard b).map (fun r => (r.map f).sum)).sum
      = (b.map (fun r => (r.map f).sum)).sum := by
  have hL : ((transposeBoard b).map (fun r => (r.map f).sum)).sum
      = ∑ c ∈ Finset.range C, ∑ r ∈ Finset.range b.length,
          f ((b.getD r []).getD c none) := by
    rw [transposeBoard_eq hb hC, List.map_map, sum_map_range]
    apply Finset.sum_congr rfl
    intro c _
    simp only [Function.comp_apply, List.map_map, sum_map_range]
  have hR : (b.map (fun r => (r.map f).sum)).sum
      = ∑ r ∈ Finset.range b.length, ∑ c ∈ Finset.range C,
          f ((b.getD r []).getD c none) := by
    conv_lhs => rw [← map_getD_range b ([] : Row)]
    rw [List.map_map, sum_map_range]
    apply Finset.sum_congr rfl
    intro r hr
    rw [Finset.mem_range] at hr
    simp only [Function.comp_apply]
    rw [sum_map_eq_finset, hC _ (getD_mem_of_lt [] hr)]
  rw [hL, hR, Finset.sum_comm]

/-! ### Score and occupied count as plain cell sums -/

theorem filterMap_id_sum (r : Row) :
    (r.filterMap id).sum = (r.map (fun c => c.getD 0)).sum := by
  induction r with
  | nil => rfl
  | cons c t ih => cases c <;> simp [List.filterMap_cons, ih]

theorem occupiedCountRow_eq_map_sum (r : Row) :
    occupiedCountRow r = (r.map (fun c => if c.isSome then 1 else 0)).sum := by
  induction r with
  | nil => rfl
  | cons c t ih =>
    cases c <;> simp [occupiedCountRow, List.countP_cons] at ih ⊢ <;> omega

theorem getCurrentScore_transposeBoard {b : Board} {C : Nat}
    (hb : 0 < b.length) (hC : ∀ r ∈ b, r.length = C) :
    getCurrentScore (transposeBoard b) = getCurrentScore b := by
  unfold getCurrentScore
  simp only [filterMap_id_sum]
  exact sum_map_transposeBoard _ hb hC

theorem occupiedCount_eq_mapSum (b : Board) :
    occupiedCount b
      = (b.map (fun r => (r.map (fun c => if c.isSome then 1 else 0)).sum)).sum := by
  unfold occupiedCount
  exact congrArg List.sum
    (List.map_congr_left (fun r _ => occupiedCountRow_eq_map_sum r))

theorem occupiedCount_transposeBoard {b : Board} {C : Nat}
    (hb : 0 < b.length) (hC : ∀ r ∈ b, r.length = C) :
    occupiedCount (transposeBoard b) = occupiedCount b := by
  rw [occupiedCount_eq_mapSum, occupiedCount_eq_mapSum]
  exact sum_map_transposeBoard _ hb hC

/-! ### Dimension bookkeeping on 4x4 boards -/

theorem transposeBoard_dims4 {b : Board} (h4 : dims4 b) :
    dims4 (transposeBoard b) := by
  obtain ⟨hlen, hrows⟩ := h4
  have hb : 0 < b.length := by omega
  refine ⟨transposeBoard_length hb hrows, ?_⟩
  intro r hr
  rw [transposeBoard_mem_length hb hrows r hr, hlen]

theorem dims4_map_of_length {b : Board} (h4 : dims4 b) {f : Row → Row}
    (hf : ∀ r, (f r).length = r.length) : dims4 (b.map f) := by
  obtain ⟨hlen, hrows⟩ := h4
  refine ⟨by simpa using hlen, ?_⟩
  intro r hr
  rcases List.mem_map.mp hr with ⟨t, ht, rfl⟩
  rw [hf t]
  exact hrows t ht

theorem dims4_pos {b : Board} (h4 : dims4 b) : 0 < b.length := by
  have := h4.1
  omega

theorem score_transpose_of_dims4 {b : Board} (h4 : dims4 b) :
    getCurrentScore (transposeBoard b) = getCurrentScore b :=
  getCurrentScore_transposeBoard (dims4_pos h4) h4.2

theorem count_transpose_of_dims4 {b : Board} (h4 : dims4 b) :
    occupiedCount (transposeBoard b) = occupiedCount b :=
  occupiedCount_transposeBoard (dims4_pos h4) h4.2

theorem score_map_slide (b : Board) :
    getCurrentScore (b.map slideLeftAndMergeRow) = getCurrentScore b := by
  unfold getCurrentScore
  rw [List.map_map]
  exact congrArg List.sum (List.map_congr_left (fun r _ => rowScore_slide r))

theorem rowScore_slideRev (r : Row) :
    (((slideLeftAndMergeRow r.reverse).reverse).filterMap id).sum
      = (r.filterMap id).sum := by
  rw [List.filterMap_reverse, List.sum_reverse, rowScore_slide, rowScore_reverse]

theorem score_map_slideRev (b : Board) :
    getCurrentScore
        (b.map (fun row => (slideLeftAndMergeRow row.reverse).reverse))
      = getCurrentScore b := by
  unfold getCurrentScore
  rw [List.map_map]
  exact congrArg List.sum (List.map_congr_left (fun r _ => rowScore_slideRev r))

theorem count_map_slide_le (b : Board) :
    occupiedCount (b.map slideLeftAndMergeRow) ≤ occupiedCount b := by
  unfold occupiedCount
  rw [List.map_map]
  exact List.sum_le_sum (fun r _ => occupiedCountRow_slide_le r)

theorem occupiedCountRow_slideRev_le (r : Row) :
    occupiedCountRow ((slideLeftAndMergeRow r.reverse).reverse)
      ≤ occupiedCountRow r := by
  rw [occupiedCountRow_reverse]
  exact le_trans (occupiedCountRow_slide_le _)
    (le_of_eq (occupiedCountRow_reverse r))

theorem count_map_slideRev_le (b : Board) :
    occupiedCount (b.map (fun row => (slideLeftAndMergeRow row.reverse).reverse))
      ≤ occupiedCount b := by
  unfold occupiedCount
  rw [List.map_map]
  exact List.sum_le_sum (fun r _ => occupiedCountRow_slideRev_le r)

theorem slideRev_length (r : Row) :
    ((slideLeftAndMergeRow r.reverse).reverse).length = r.length := by
  rw [List.length_reverse, slide_length, List.length_reverse]

/-! ### Reduction of updateTheBoardBasedOnTheUserMove per direction -/

theorem update_A (b : Board) :
    updateTheBoardBasedOnTheUserMove "A" b
      = Except.ok (b.map slideLeftAndMergeRow) := rfl

theorem update_D (b : Board) :
    updateTheBoardBasedOnTheUserMove "D" b
      = Except.ok (b.map (fun row => (slideLeftAndMergeRow row.reverse).reverse)) :=
  rfl

theorem update_W (b : Board) :
    updateTheBoardBasedOnTheUserMove "W" b
      = Except.ok (transposeBoard
          ((transposeBoard b).map slideLeftAndMergeRow)) := rfl

theorem update_S (b : Board) :
    updateTheBoardBasedOnTheUserMove "S" b
      = Except.ok (transposeBoard ((transposeBoard b).map
          (fun row => (slideLeftAndMergeRow row.reverse).reverse))) := rfl

theorem update_invalid (move : String) (b : Board)
    (h : move ≠ "A" ∧ move ≠ "D" ∧ move ≠ "W" ∧ move ≠ "S") :
    updateTheBoardBasedOnTheUserMove move b
      = Except.error "Unexpected logic path" := by
  unfold updateTheBoardBasedOnTheUserMove
  rw [if_neg h.1, if_neg h.2.1, if_neg h.2.2.1, if_neg h.2.2.2]

/-- C1: for every 4x4 grid and every direction in WASD, the slide-and-merge
step succeeds and leaves the sum of all occupied cell values, i.e.
getCurrentScore, unchanged (no spawn in between). -/
theorem C1_score_preserved (b : Board) (h4 : dims4 b) (move : String)
    (hm : move = "A" ∨ move = "D" ∨ move = "W" ∨ move = "S") :
    ∃ b', updateTheBoardBasedOnTheUserMove move b = Except.ok b'
      ∧ getCurrentScore b' = getCurrentScore b := by
  have h4T : dims4 (transposeBoard b) := transposeBoard_dims4 h4
  rcases hm with rfl | rfl | rfl | rfl
  · exact ⟨_, update_A b, score_map_slide b⟩
  · exact ⟨_, update_D b, score_map_slideRev b⟩
  · refine ⟨_, update_W b, ?_⟩
    rw [score_transpose_of_dims4 (dims4_map_of_length h4T slide_length),
      score_map_slide, score_transpose_of_dims4 h4]
  · refine ⟨_, update_S b, ?_⟩
    rw [score_transpose_of_dims4 (dims4_map_of_length h4T slideRev_length),
      score_map_slideRev, score_transpose_of_dims4 h4]

/-- Witness for C1, at the spec example board with row 0 = [2,2,4,""] and
move Left. -/
theorem C1_score_preserved_witness :
    ∃ b', updateTheBoardBasedOnTheUserMove "A"
        [[some 2, some 2, some 4, none], [none, none, none, none],
         [none, none, none, none], [none, none, none, none]] = Except.ok b'
      ∧ getCurrentScore b'
          = getCurrentScore
              [[some 2, some 2, some 4, none], [none, none, none, none],
               [none, none, none, none], [none, none, none, none]] :=
  C1_score_preserved _ (by constructor <;> decide) "A" (Or.inl rfl)

/-- C2: for every 4x4 grid and every direction in WASD, the number of
occupied cells after the move is at most the number before. -/
theorem C2_count_nonincreasing (b : Board) (h4 : dims4 b) (move : String)
    (hm : move = "A" ∨ move = "D" ∨ move = "W" ∨ move = "S") :
    ∃ b', updateTheBoardBasedOnTheUserMove move b = Except.ok b'
      ∧ occupiedCount b' ≤ occupiedCount b := by
  have h4T : dims4 (transposeBoard b) := transposeBoard_dims4 h4
  rcases hm with rfl | rfl | rfl | rfl
  · exact ⟨_, update_A b, count_map_slide_le b⟩
  · exact ⟨_, update_D b, count_map_slideRev_le b⟩
  · refine ⟨_, update_W b, ?_⟩
    rw [count_transpose_of_dims4 (dims4_map_of_length h4T slide_length)]
    exact le_trans (count_map_slide_le _) (le_of_eq (count_transpose_of_dims4 h4))
  · refine ⟨_, update_S b, ?_⟩
    rw [count_transpose_of_dims4 (dims4_map_of_length h4T slideRev_length)]
    exact le_trans (count_map_slideRev_le _)
      (le_of_eq (count_transpose_of_dims4 h4))

/-- Witness for C2, at a board with a mergeable column and move Up. -/
theorem C2_count_nonincreasing_witness :
    ∃ b', updateTheBoardBasedOnTheUserMove "W"
        [[some 2, none, none, none], [some 2, none, none, none],
         [some 4, none, none, none], [none, none, none, none]] = Except.ok b'
      ∧ occupiedCount b'
          ≤ occupiedCount
              [[some 2, none, none, none], [some 2, none, none, none],
               [some 4, none, none, none], [none, none, none, none]] :=
  C2_count_nonincreasing _ (by constructor <;> decide) "W" (Or.inr (Or.inr (Or.inl rfl)))

/-! ### Idempotence analysis for a repeated move -/

/-- The compacted value sequence of a row has no two equal adjacent values,
so the merge pass does nothing on it. -/
def rowMergeFree (r : Row) : Prop :=
  (r.filterMap id).Chain' (fun a b => a ≠ b)

instance (r : Row) : Decidable (rowMergeFree r) :=
  inferInstanceAs (Decidable ((r.filterMap id).Chain' (fun a b => a ≠ b)))

/-- The lines a move processes, oriented as the left-sliding algorithm sees
them: rows for Left, reversed rows for Right, columns for Up, reversed
columns for Down. -/
def linesOf (move : String) (b : Board) : List Row :=
  if move = "A" then b
  else if move = "D" then b.map List.reverse
  else if move = "W" then transposeBoard b
  else (transposeBoard b).map List.reverse

theorem linesOf_A (b : Board) : linesOf "A" b = b := rfl

theorem linesOf_D (b : Board) : linesOf "D" b = b.map List.reverse := rfl

theorem linesOf_W (b : Board) : linesOf "W" b = transposeBoard b := rfl

theorem linesOf_S (b : Board) :
    linesOf "S" b = (transposeBoard b).map List.reverse := rfl

theorem slide_idem_of_mergeFree (r : Row)
    (h : rowMergeFree (slideLeftAndMergeRow r)) :
    slideLeftAndMergeRow (slideLeftAndMergeRow r) = slideLeftAndMergeRow r := by
  unfold rowMergeFree at h
  rw [slide_filterMap r] at h
  have key : slideLeftAndMergeRow (slideLeftAndMergeRow r)
      = (mergePass ((slideLeftAndMergeRow r).filterMap id)).map some
        ++ List.replicate ((slideLeftAndMergeRow r).length
            - (mergePass ((slideLeftAndMergeRow r).filterMap id)).length) none := rfl
  rw [key, slide_filterMap r, mergePass_of_chain _ h, slide_length]
  rfl

theorem slideRev_idem_of_mergeFree (r : Row)
    (h : rowMergeFree (slideLeftAndMergeRow r.reverse)) :
    (slideLeftAndMergeRow
        ((slideLeftAndMergeRow r.reverse).reverse).reverse).reverse
      = (slideLeftAndMergeRow r.reverse).reverse := by
  rw [List.reverse_reverse, slide_idem_of_mergeFree _ h]

/-- C3 counterexample: on the 4x4 grid with row 0 = [2,2,4,""] and empty
rows elsewhere, sliding Left once gives row 0 = [4,4,"",""], but sliding Left
again merges the two 4s into an 8, so the double application differs from the
single one: the claimed idempotence is false. -/
theorem C3_counterexample :
    updateTheBoardBasedOnTheUserMove "A"
        [[some 2, some 2, some 4, none], [none, none, none, none],
         [none, none, none, none], [none, none, none, none]]
      = Except.ok
        [[some 4, some 4, none, none], [none, none, none, none],
         [none, none, none, none], [none, none, none, none]]
    ∧ updateTheBoardBasedOnTheUserMove "A"
        [[some 4, some 4, none, none], [none, none, none, none],
         [none, none, none, none], [none, none, none, none]]
      = Except.ok
        [[some 8, none, none, none], [none, none, none, none],
         [none, none, none, none], [none, none, none, none]]
    ∧ ([[some 8, none, none, none], [none, none, none, none],
        [none, none, none, none], [none, none, none, none]] : Board)
      ≠ [[some 4, some 4, none, none], [none, none, none, none],
         [none, none, none, none], [none, none, none, none]] := by
  refine ⟨rfl, rfl, ?_⟩
  decide

/-- C3 amended: applying the same direction twice with no spawn in between
is idempotent provided the first application left no two equal adjacent
occupied values along any line of that direction; without that proviso a
tile produced by a merge can merge again on the repeated move. -/
theorem C3_amended_idempotent (b : Board) (h4 : dims4 b) (move : String)
    (hm : move = "A" ∨ move = "D" ∨ move = "W" ∨ move = "S") (b' : Board)
    (hb' : updateTheBoardBasedOnTheUserMove move b = Except.ok b')
    (hfree : ∀ r ∈ linesOf move b', rowMergeFree r) :
    updateTheBoardBasedOnTheUserMove move b' = Except.ok b' := by
  have h4T : dims4 (transposeBoard b) := transposeBoard_dims4 h4
  rcases hm with rfl | rfl | rfl | rfl
  · rw [update_A, Except.ok.injEq] at hb'
    subst hb'
    rw [linesOf_A] at hfree
    rw [update_A, List.map_map, Except.ok.injEq]
    apply List.map_congr_left
    intro r hr
    exact slide_idem_of_mergeFree r
      (hfree _ (List.mem_map.mpr ⟨r, hr, rfl⟩))
  · rw [update_D, Except.ok.injEq] at hb'
    subst hb'
    rw [linesOf_D] at hfree
    rw [update_D, List.map_map, Except.ok.injEq]
    apply List.map_congr_left
    intro r hr
    have hmem : (slideLeftAndMergeRow r.reverse).reverse.reverse
        ∈ (b.map (fun row => (slideLeftAndMergeRow row.reverse).reverse)).map
            List.reverse := by
      exact List.mem_map.mpr
        ⟨(slideLeftAndMergeRow r.reverse).reverse,
          List.mem_map.mpr ⟨r, hr, rfl⟩, rfl⟩
    rw [List.reverse_reverse] at hmem
    exact slideRev_idem_of_mergeFree r (hfree _ hmem)
  · rw [update_W, Except.ok.injEq] at hb'
    subst hb'
    rw [linesOf_W] at hfree
    have h4X : dims4 ((transposeBoard b).map slideLeftAndMergeRow) :=
      dims4_map_of_length h4T slide_length
    have hTb' : transposeBoard (transposeBoard
        ((transposeBoard b).map slideLeftAndMergeRow))
        = (transposeBoard b).map slideLeftAndMergeRow :=
      transposeBoard_transposeBoard (dims4_pos h4X) (by norm_num) h4X.2
    rw [hTb'] at hfree
    rw [update_W, hTb', List.map_map, Except.ok.injEq]
    have : (transposeBoard b).map (slideLeftAndMergeRow ∘ slideLeftAndMergeRow)
        = (transposeBoard b).map slideLeftAndMergeRow := by
      apply List.map_congr_left
      intro t ht
      exact slide_idem_of_mergeFree t
        (hfree _ (List.mem_map.mpr ⟨t, ht, rfl⟩))
    rw [this]
  · rw [update_S, Except.ok.injEq] at hb'
    subst hb'
    rw [linesOf_S] at hfree
    have h4X : dims4 ((transposeBoard b).map
        (fun row => (slideLeftAndMergeRow row.reverse).reverse)) :=
      dims4_map_of_length h4T slideRev_length
    have hTb' : transposeBoard (transposeBoard ((transposeBoard b).map
        (fun row => (slideLeftAndMergeRow row.reverse).reverse)))
        = (transposeBoard b).map
            (fun row => (slideLeftAndMergeRow row.reverse).reverse) :=
      transposeBoard_transposeBoard (dims4_pos h4X) (by norm_num) h4X.2
    rw [hTb'] at hfree
    rw [update_S, hTb', List.map_map, Except.ok.injEq]
    have : (transposeBoard b).map
          ((fun row => (slideLeftAndMergeRow row.reverse).reverse)
            ∘ (fun row => (slideLeftAndMergeRow row.reverse).reverse))
        = (transposeBoard b).map
            (fun row => (slideLeftAndMergeRow row.reverse).reverse) := by
      apply List.map_congr_left
      intro t ht
      have hmem : ((slideLeftAndMergeRow t.reverse).reverse).reverse
          ∈ ((transposeBoard b).map
              (fun row => (slideLeftAndMergeRow row.reverse).reverse)).map
              List.reverse :=
        List.mem_map.mpr
          ⟨(slideLeftAndMergeRow t.reverse).reverse,
            List.mem_map.mpr ⟨t, ht, rfl⟩, rfl⟩
      rw [List.reverse_reverse] at hmem
      exact slideRev_idem_of_mergeFree t (hfree _ hmem)
    rw [this]

/-- Witness for the amended C3, on a grid whose single Left slide leaves no
adjacent equal pair. -/
theorem C3_amended_idempotent_witness :
    updateTheBoardBasedOnTheUserMove "A"
        [[some 4, some 2, none, none], [none, none, none, none],
         [none, none, none, none], [none, none, none, none]]
      = Except.ok
        [[some 4, some 2, none, none], [none, none, none, none],
         [none, none, none, none], [none, none, none, none]] :=
  C3_amended_idempotent
    [[some 4, none, some 2, none], [none, none, none, none],
     [none, none, none, none], [none, none, none, none]]
    (by constructor <;> decide) "A" (Or.inl rfl)
    [[some 4, some 2, none, none], [none, none, none, none],
     [none, none, none, none], [none, none, none, none]]
    (by rfl)
    (by intro r hr; fin_cases hr <;> simp [rowMergeFree, List.filterMap_cons])

/-- C7: for every rectangular grid with positive dimensions, transposing
twice is the identity. -/
theorem C7_transpose_involution (b : Board) (R C : Nat) (hR : b.length = R)
    (hC : ∀ r ∈ b, r.length = C) (hR0 : 0 < R) (hC0 : 0 < C) :
    transposeBoard (transposeBoard b) = b :=
  transposeBoard_transposeBoard (hR ▸ hR0) hC0 hC

/-- Witness for C7 on a concrete 2x3 grid. -/
theorem C7_transpose_involution_witness :
    transposeBoard (transposeBoard
        [[some 1, some 2, none], [none, some 3, some 4]])
      = [[some 1, some 2, none], [none, some 3, some 4]] :=
  C7_transpose_involution _ 2 3 rfl (by decide) (by decide) (by decide)

/-- C9: for every string that is not one of "A", "D", "W" or "S" and every
grid, updateTheBoardBasedOnTheUserMove fails fast with the RuntimeError of
the final else branch; the error is raised before any mutation, so the grid
is untouched (no ok-board is produced). -/
theorem C9_invalid_move_errors (move : String) (b : Board)
    (h : move ≠ "A" ∧ move ≠ "D" ∧ move ≠ "W" ∧ move ≠ "S") :
    updateTheBoardBasedOnTheUserMove move b
      = Except.error "Unexpected logic path" :=
  update_invalid move b h

/-- Witness for C9 at the quit token "Q". -/
theorem C9_invalid_move_errors_witness :
    updateTheBoardBasedOnTheUserMove "Q"
        [[some 2, none, none, none], [none, none, none, none],
         [none, none, none, none], [none, none, none, none]]
      = Except.error "Unexpected logic path" :=
  C9_invalid_move_errors "Q" _ (by refine ⟨?_, ?_, ?_, ?_⟩ <;> decide)

/-! ### Fullness -/

theorem occupiedCount_le_total (b : Board) :
    occupiedCount b ≤ (b.map List.length).sum := by
  unfold occupiedCount
  exact List.sum_le_sum (fun r _ => List.countP_le_length _)

theorem occupiedCount_eq_total_iff (b : Board) :
    occupiedCount b = (b.map List.length).sum
      ↔ ∀ r ∈ b, occupiedCountRow r = r.length := by
  induction b with
  | nil => simp [occupiedCount]
  | cons r t ih =>
    have h1 : occupiedCountRow r ≤ r.length := List.countP_le_length _
    have h2 : (t.map occupiedCountRow).sum ≤ (t.map List.length).sum :=
      occupiedCount_le_total t
    simp only [occupiedCount, List.map_cons, List.sum_cons,
      List.forall_mem_cons] at ih ⊢
    constructor
    · intro h
      have hr : occupiedCountRow r = r.length := by omega
      exact ⟨hr, ih.mp (by omega)⟩
    · rintro ⟨hr, ht⟩
      have := ih.mpr ht
      omega

theorem sum_map_length_dims4 {b : Board} (h4 : dims4 b) :
    (b.map List.length).sum = 16 := by
  obtain ⟨hlen, hrows⟩ := h4
  have h : b.map List.length = b.map (fun _ => 4) :=
    List.map_congr_left (fun r hr => hrows r hr)
  rw [h, List.map_const', List.sum_replicate, hlen]
  rfl

/-- C6: on a 4x4 grid, isFull returns true exactly when all 16 cells are
occupied, i.e. the occupied-cell count equals R*C = 16. -/
theorem C6_isFull_iff (b : Board) (h4 : dims4 b) :
    isFull b = true ↔ occupiedCount b = 16 := by
  rw [← sum_map_length_dims4 h4, occupiedCount_eq_total_iff]
  simp only [isFull, List.all_eq_true, occupiedCountRow, List.countP_eq_length]

/-- Witness for C6 on a full 4x4 grid. -/
theorem C6_isFull_iff_witness :
    isFull [[some 2, some 4, some 2, some 4], [some 4, some 2, some 4, some 2],
            [some 2, some 4, some 2, some 4], [some 4, some 2, some 4, some 2]]
        = true
      ↔ occupiedCount
          [[some 2, some 4, some 2, some 4], [some 4, some 2, some 4, some 2],
           [some 2, some 4, some 2, some 4], [some 4, some 2, some 4, some 2]]
        = 16 :=
  C6_isFull_iff _ (by constructor <;> decide)

/-! ### Pointwise update lemmas -/

theorem getD_set_self {α : Type} (l : List α) (i : Nat) (v d : α)
    (h : i < l.length) : (l.set i v).getD i d = v := by
  rw [List.getD_eq_getElem _ _ (by simpa using h), List.getElem_set]
  simp

theorem getD_set_ne {α : Type} (l : List α) {i j : Nat} (hij : i ≠ j)
    (v d : α) : (l.set i v).getD j d = l.getD j d := by
  by_cases hj : j < l.length
  · rw [List.getD_eq_getElem _ _ (by simpa using hj),
      List.getD_eq_getElem _ _ hj, List.getElem_set_ne hij]
  · rw [List.getD_eq_default _ _ (by simpa using Nat.le_of_not_lt hj),
      List.getD_eq_default _ _ (Nat.le_of_not_lt hj)]

theorem getD_eq_of_lt {α : Type} (l : List α) (d d' : α) {i : Nat}
    (h : i < l.length) : l.getD i d = l.getD i d' := by
  rw [List.getD_eq_getElem _ _ h, List.getD_eq_getElem _ _ h]

theorem sum_map_set {α : Type} (f : α → Nat) :
    ∀ (l : List α) (i : Nat) (v : α), i < l.length →
      ((l.set i v).map f).sum + f (l.getD i v) = (l.map f).sum + f v := by
  intro l
  induction l with
  | nil => intro i v h; simp at h
  | cons a t ih =>
    intro i v h
    cases i with
    | zero => simp [List.set]; omega
    | succ j =>
      simp only [List.set, List.map_cons, List.sum_cons, List.getD_cons_succ]
      have := ih j v (by simpa using h)
      omega

theorem occupiedCountRow_set_of_empty {r : Row} {c : Nat}
    (hc : c < r.length) (hcell : r.getD c none = none) :
    occupiedCountRow (r.set c (some 2)) = occupiedCountRow r + 1 := by
  rw [occupiedCountRow_eq_map_sum, occupiedCountRow_eq_map_sum]
  have h := sum_map_set (fun cl : Cell => if cl.isSome then 1 else 0)
    r c (some 2) hc
  rw [getD_eq_of_lt r (some 2) none hc, hcell] at h
  simpa using h

theorem occupiedCount_setCell_of_empty {b : Board} {r c : Nat}
    (hr : r < b.length) (hc : c < (b.getD r []).length)
    (hcell : (b.getD r []).getD c none = none) :
    occupiedCount (setCell b r c (some 2)) = occupiedCount b + 1 := by
  have hrow := occupiedCountRow_set_of_empty hc hcell
  have hb := sum_map_set occupiedCountRow b r ((b.getD r []).set c (some 2)) hr
  rw [getD_eq_of_lt b ((b.getD r []).set c (some 2)) [] hr, hrow] at hb
  show (List.map occupiedCountRow (b.set r ((b.getD r []).set c (some 2)))).sum
    = (List.map occupiedCountRow b).sum + 1
  omega

theorem getCell_setCell_self {b : Board} {r c : Nat} (v : Cell)
    (hr : r < b.length) (hc : c < (b.getD r []).length) :
    getCell (setCell b r c v) r c = v := by
  unfold getCell setCell
  rw [getD_set_self _ _ _ _ hr]
  exact getD_set_self _ _ _ _ hc

theorem getCell_setCell_ne {b : Board} {r c r' c' : Nat} (v : Cell)
    (h : (r', c') ≠ (r, c)) :
    getCell (setCell b r c v) r' c' = getCell b r' c' := by
  unfold getCell setCell
  by_cases hrr : r' = r
  · subst hrr
    have hcc : c' ≠ c := by
      intro e
      exact h (by rw [e])
    by_cases hrl : r' < b.length
    · rw [getD_set_self _ _ _ _ hrl, getD_set_ne _ (fun e => hcc e.symm)]
    · have h1 : (b.set r' ((b.getD r' []).set c v)).getD r' [] = [] :=
        List.getD_eq_default _ _ (by simpa using Nat.le_of_not_lt hrl)
      have h2 : b.getD r' [] = [] := List.getD_eq_default _ _ (Nat.le_of_not_lt hrl)
      rw [h1, h2]
  · rw [getD_set_ne _ (fun e => hrr e.symm)]

/-! ### The empty-cell enumeration -/

theorem isEmpty_false_of_lt {α : Type} {l : List α} {i : Nat}
    (h : i < l.length) : l.isEmpty = false := by
  cases l with
  | nil => simp at h
  | cons a t => rfl

theorem mem_emptyCells {b : Board} {r c : Nat} :
    (r, c) ∈ emptyCells b
      ↔ r < b.length ∧ c < (b.headD []).length
          ∧ (b.getD r []).getD c (some 0) = none := by
  unfold emptyCells
  rw [List.mem_flatMap]
  constructor
  · rintro ⟨row, hrow, hmem⟩
    rw [List.mem_range] at hrow
    rw [List.mem_filterMap] at hmem
    obtain ⟨col, hcol, hif⟩ := hmem
    rw [List.mem_range] at hcol
    split at hif
    case isTrue hP =>
      rw [Option.some.injEq, Prod.mk.injEq] at hif
      obtain ⟨rfl, rfl⟩ := hif
      exact ⟨hrow, hcol, hP⟩
    case isFalse => cases hif
  · rintro ⟨hr, hc, hnone⟩
    refine ⟨r, List.mem_range.mpr hr, List.mem_filterMap.mpr
      ⟨c, List.mem_range.mpr hc, ?_⟩⟩
    rw [if_pos hnone]

/-- C5: if no cell of a 4x4 grid is empty, addANewTwoToBoard is a no-op (not
an error); if at least one cell is empty then for every possible random
choice (every index into the empty-cell list) the occupied count grows by
exactly 1 and the chosen cell ends up holding exactly the value 2. -/
theorem C5_spawn (b : Board) (h4 : dims4 b) (i : Nat) :
    ((∀ r < 4, ∀ c < 4, getCell b r c ≠ none) → addANewTwoToBoard b i = b)
    ∧ (i < (emptyCells b).length →
        occupiedCount (addANewTwoToBoard b i) = occupiedCount b + 1
        ∧ getCell (addANewTwoToBoard b i)
            ((emptyCells b).getD i (0, 0)).1 ((emptyCells b).getD i (0, 0)).2
          = some 2) := by
  obtain ⟨hlen, hrows⟩ := h4
  have hhead : (b.headD []).length = 4 := headD_length (by omega) hrows
  constructor
  · intro hfull
    have hempty : emptyCells b = [] := by
      rw [List.eq_nil_iff_forall_not_mem]
      rintro ⟨r, c⟩ hmem
      obtain ⟨hr, hc, hcell⟩ := mem_emptyCells.mp hmem
      rw [hlen] at hr
      rw [hhead] at hc
      have hrowlen : (b.getD r []).length = 4 :=
        hrows _ (getD_mem_of_lt [] (by omega))
      have hnone : getCell b r c = none := by
        unfold getCell
        rw [getD_eq_of_lt _ none (some 0) (by omega), hcell]
      exact hfull r hr c hc hnone
    simp [addANewTwoToBoard, hempty]
  · intro hi
    have hmem : (emptyCells b).getD i (0, 0) ∈ emptyCells b :=
      getD_mem_of_lt _ hi
    rcases hp : (emptyCells b).getD i (0, 0) with ⟨r0, c0⟩
    rw [hp] at hmem
    obtain ⟨hr, hc, hcell⟩ := mem_emptyCells.mp hmem
    rw [hhead] at hc
    have hrowlen : (b.getD r0 []).length = 4 := hrows _ (getD_mem_of_lt [] hr)
    have hcell' : (b.getD r0 []).getD c0 none = none := by
      rw [getD_eq_of_lt _ none (some 0) (by omega), hcell]
    have hadd : addANewTwoToBoard b i = setCell b r0 c0 (some 2) := by
      show (if (emptyCells b).isEmpty = true then b
        else setCell b ((emptyCells b).getD i (0, 0)).1
          ((emptyCells b).getD i (0, 0)).2 (some 2)) = setCell b r0 c0 (some 2)
      rw [isEmpty_false_of_lt hi, if_neg Bool.false_ne_true, hp]
    rw [hadd]
    exact ⟨occupiedCount_setCell_of_empty hr (by omega) hcell',
      getCell_setCell_self _ hr (by omega)⟩

/-- Witness for C5: the no-op half on a full grid, the spawn half on a grid
with empty cells. -/
theorem C5_spawn_witness :
    addANewTwoToBoard
        [[some 2, some 4, some 2, some 4], [some 4, some 2, some 4, some 2],
         [some 2, some 4, some 2, some 4], [some 4, some 2, some 4, some 2]] 0
      = [[some 2, some 4, some 2, some 4], [some 4, some 2, some 4, some 2],
         [some 2, some 4, some 2, some 4], [some 4, some 2, some 4, some 2]]
    ∧ (occupiedCount (addANewTwoToBoard
          [[some 2, none, none, none], [none, none, none, none],
           [none, none, none, none], [none, none, none, none]] 0)
        = occupiedCount
            [[some 2, none, none, none], [none, none, none, none],
             [none, none, none, none], [none, none, none, none]] + 1
        ∧ getCell (addANewTwoToBoard
            [[some 2, none, none, none], [none, none, none, none],
             [none, none, none, none], [none, none, none, none]] 0)
            ((emptyCells
                [[some 2, none, none, none], [none, none, none, none],
                 [none, none, none, none], [none, none, none, none]]).getD 0
              (0, 0)).1
            ((emptyCells
                [[some 2, none, none, none], [none, none, none, none],
                 [none, none, none, none], [none, none, none, none]]).getD 0
              (0, 0)).2
          = some 2) :=
  ⟨(C5_spawn _ (by constructor <;> decide) 0).1 (by decide),
   (C5_spawn _ (by constructor <;> decide) 0).2 (by decide)⟩

/-- C10: for every 4x4 grid with an empty cell and every possible random
choice, addANewTwoToBoard writes only the chosen cell, which was empty
before the call; every other cell, occupied or not, keeps its exact previous
value and position. -/
theorem C10_spawn_frame (b : Board) (h4 : dims4 b) (i : Nat)
    (hi : i < (emptyCells b).length) :
    getCell b ((emptyCells b).getD i (0, 0)).1
        ((emptyCells b).getD i (0, 0)).2 = none
    ∧ ∀ r c, (r, c) ≠ (emptyCells b).getD i (0, 0) →
        getCell (addANewTwoToBoard b i) r c = getCell b r c := by
  obtain ⟨hlen, hrows⟩ := h4
  have hhead : (b.headD []).length = 4 := headD_length (by omega) hrows
  have hmem : (emptyCells b).getD i (0, 0) ∈ emptyCells b :=
    getD_mem_of_lt _ hi
  rcases hp : (emptyCells b).getD i (0, 0) with ⟨r0, c0⟩
  rw [hp] at hmem
  obtain ⟨hr, hc, hcell⟩ := mem_emptyCells.mp hmem
  rw [hhead] at hc
  have hrowlen : (b.getD r0 []).length = 4 := hrows _ (getD_mem_of_lt [] hr)
  have hcell' : (b.getD r0 []).getD c0 none = none := by
    rw [getD_eq_of_lt _ none (some 0) (by omega), hcell]
  have hadd : addANewTwoToBoard b i = setCell b r0 c0 (some 2) := by
    show (if (emptyCells b).isEmpty = true then b
      else setCell b ((emptyCells b).getD i (0, 0)).1
        ((emptyCells b).getD i (0, 0)).2 (some 2)) = setCell b r0 c0 (some 2)
    rw [isEmpty_false_of_lt hi, if_neg Bool.false_ne_true, hp]
  refine ⟨hcell', ?_⟩
  intro r c hne
  rw [hadd]
  exact getCell_setCell_ne _ hne

/-- Witness for C10: the cell spawned into was empty, and an untouched cell
keeps its value. -/
theorem C10_spawn_frame_witness :
    getCell
        [[some 2, none, none, none], [none, none, none, none],
         [none, none, none, none], [none, none, none, none]]
        ((emptyCells
            [[some 2, none, none, none], [none, none, none, none],
             [none, none, none, none], [none, none, none, none]]).getD 0
          (0, 0)).1
        ((emptyCells
            [[some 2, none, none, none], [none, none, none, none],
             [none, none, none, none], [none, none, none, none]]).getD 0
          (0, 0)).2 = none
    ∧ getCell (addANewTwoToBoard
        [[some 2, none, none, none], [none, none, none, none],
         [none, none, none, none], [none, none, none, none]] 0) 0 0
      = getCell
          [[some 2, none, none, none], [none, none, none, none],
           [none, none, none, none], [none, none, none, none]] 0 0 :=
  ⟨(C10_spawn_frame _ (by constructor <;> decide) 0 (by decide)).1,
   (C10_spawn_frame _ (by constructor <;> decide) 0 (by decide)).2 0 0
     (by decide)⟩

/-! ### Initialization -/

set_option synthInstance.maxSize 512 in
theorem init_propsAux :
    ∀ n1 < 16, ∀ n2 < 16, n1 ≠ n2 →
      occupiedCount (init n1 n2) = 2 ∧ getCurrentScore (init n1 n2) = 4
      ∧ ∀ r < 4, ∀ c < 4,
          getCell (init n1 n2) r c = none ∨ getCell (init n1 n2) r c = some 2 := by
  decide

/-- C8: for every outcome of random.sample (two distinct positions out of
16), the initialized board has exactly two occupied cells, every cell is
empty or holds exactly 2, and the score is 4.  Two occupied cells with count
2 at distinct coordinates follow from the distinctness of the two sampled
numbers. -/
theorem C8_init_two_tiles (n1 n2 : Nat) (h1 : n1 < 16) (h2 : n2 < 16)
    (hne : n1 ≠ n2) :
    occupiedCount (init n1 n2) = 2 ∧ getCurrentScore (init n1 n2) = 4
    ∧ ∀ r < 4, ∀ c < 4,
        getCell (init n1 n2) r c = none ∨ getCell (init n1 n2) r c = some 2 :=
  init_propsAux n1 h1 n2 h2 hne

/-- Witness for C8 at the sample outcome (0, 5). -/
theorem C8_init_two_tiles_witness :
    occupiedCount (init 0 5) = 2 ∧ getCurrentScore (init 0 5) = 4
    ∧ (getCell (init 0 5) 1 1 = none ∨ getCell (init 0 5) 1 1 = some 2) :=
  ⟨(C8_init_two_tiles 0 5 (by decide) (by decide) (by decide)).1,
   (C8_init_two_tiles 0 5 (by decide) (by decide) (by decide)).2.1,
   (C8_init_two_tiles 0 5 (by decide) (by decide) (by decide)).2.2 1
     (by decide) 1 (by decide)⟩
